import Mathlib

/-!
Verification of the transactional domain-event coordinator.

Shallow embedding of the event subsystem of `clean-modularmonolith-go`:

* `modules/shared/events/event.go` — the `Event` contract and `BaseEvent`;
* `modules/shared/domain/aggregate.go` — `AggregateRoot` event collection;
* `internal/platform/eventbus/registry.go` — `EventHandlerRegistry`;
* the `TransactionalPublisher` (buffer + FIFO flush + depth guard);
* the Spanner context propagation helpers (`withReadWriteTx`,
  `withReadOnlyTx`, `ReadTransactionFromContext`).

Modelling conventions: the Go code is single-threaded per transaction
attempt (the mutex only protects the queue across the handler re-entry
point), so state is passed explicitly.  A handler is modelled by the
ordered list of events it publishes during its `Handle` call together
with its returned error: during a flush the only publisher state a
handler can touch is the pending queue, via `Publish`, which appends.
Go `error` results are `Option` values (`none` = `nil`).
-/

namespace EventBus

/-- An event value: the `events.Event` interface exposes an id, a type
name, a timestamp and the aggregate id.  Timestamps are modelled as
naturals (Unix nanoseconds). -/
structure Event where
  eventID : String
  eventType : String
  occurredAt : Nat
  aggregateID : String
  deriving DecidableEq, Repr

/-- A handler's observable behaviour on one event: the events it
publishes (in the order of its `Publish` calls) and its returned error
(`none` = success). -/
def HandlerFn : Type := Event → List Event × Option String

/-- A handler registry, as consumed by the publisher: `HandlersFor`
for a Go map with `[]Handler` values returns the nil slice on a missing
key, so the model is a total function defaulting to `[]`. -/
def RegistryFn : Type := String → List HandlerFn

/-- Errors the event bus can return from `Flush`:
`ErrEventProcessingDepthExceeded`, or a handler error wrapped together
with the failing event's type (`fmt.Errorf("handler failed for event %s: %w", ...)`). -/
inductive EventbusErr where
  | depthExceeded
  | handlerFailed (eventType : String) (msg : String)
  deriving DecidableEq, Repr

/-- The inner loop of `Flush` over the handlers of one drained event
(`for _, handler := range handlers { ... }`).  Returns the events
published by the invoked handlers (in publication order), the
invocation trace (one entry per `handler.Handle` call, recording the
handled event), and the first handler error, if any.  A handler's own
publications are appended even when it then returns an error, exactly
as in the Go code, where `Publish` has already run by the time the
error is observed. -/
def runHandlers (e : Event) : List HandlerFn → List Event × List Event × Option String
  | [] => ([], [], none)
  | h :: hs =>
    let r := h e
    match r.2 with
    | some msg => (r.1, [e], some msg)
    | none =>
      let rest := runHandlers e hs
      (r.1 ++ rest.1, e :: rest.2.1, rest.2.2)

/-- The `Flush` drain loop.  `allowance` is `maxDepth - depth`: the Go
loop checks `depth >= maxDepth` while the queue is non-empty and
increments `depth` once per drained event, which is exactly a
per-event decreasing allowance.  Returns the handler-invocation trace,
the final pending queue, and the error result (`none` = `nil`).
Events published by handlers are appended to the tail of the same
queue (`b.pending = append(b.pending, event)`) and drained by the same
loop. -/
def flushLoop (reg : RegistryFn) : Nat → List Event → List Event × List Event × Option EventbusErr
  | _, [] => ([], [], none)
  | 0, e :: rest => ([], e :: rest, some .depthExceeded)
  | a + 1, e :: rest =>
    let r := runHandlers e (reg e.eventType)
    match r.2.2 with
    | some msg => (r.2.1, rest ++ r.1, some (.handlerFailed e.eventType msg))
    | none =>
      let next := flushLoop reg a (rest ++ r.1)
      (r.2.1 ++ next.1, next.2.1, next.2.2)

/-- Go `TransactionalPublisher`: registry reference, FIFO pending queue,
and the configured maximum depth. -/
structure TransactionalPublisher where
  registry : RegistryFn
  pending : List Event
  maxDepth : Nat

/-- Go `NewTransactionalPublisher(registry, maxDepth)`: non-positive
`maxDepth` falls back to the default 10; the queue starts empty. -/
def NewTransactionalPublisher (reg : RegistryFn) (maxDepth : Int) : TransactionalPublisher :=
  { registry := reg
    pending := []
    maxDepth := if maxDepth ≤ 0 then 10 else maxDepth.toNat }

/-- Go `Publish(ctx, event)`: appends the event to the pending queue and
returns `nil`.  It reads neither the registry nor any handler. -/
def Publish (b : TransactionalPublisher) (e : Event) :
    TransactionalPublisher × Option EventbusErr :=
  ({ b with pending := b.pending ++ [e] }, none)

/-- Go `Flush(ctx)`: drains the pending queue via `flushLoop`, returning
the handler-invocation trace, the publisher with its final queue, and
the error result. -/
def Flush (b : TransactionalPublisher) :
    List Event × TransactionalPublisher × Option EventbusErr :=
  let r := flushLoop b.registry b.maxDepth b.pending
  (r.1, { b with pending := r.2.1 }, r.2.2)

/-- Go `PendingCount()`: the length of the pending queue. -/
def PendingCount (b : TransactionalPublisher) : Nat :=
  b.pending.length

/-- Go `EventHandlerRegistry`: a map from event type to the ordered slice
of subscribed handlers.  A Go map lookup on a missing key yields the
nil slice, so the model is a total function defaulting to `[]`. -/
structure EventHandlerRegistry where
  handlers : String → List HandlerFn

/-- Go `NewEventHandlerRegistry`: the handler map starts empty. -/
def NewEventHandlerRegistry : EventHandlerRegistry :=
  ⟨fun _ => []⟩

/-- Go `Subscribe(eventType, handler)`: appends the handler to the slice
registered for that event type (`r.handlers[eventType] =
append(r.handlers[eventType], handler)`).  The Go method also returns
a `nil` error, omitted here since it carries no information. -/
def Subscribe (r : EventHandlerRegistry) (eventType : String) (h : HandlerFn) :
    EventHandlerRegistry :=
  ⟨fun t => if t = eventType then r.handlers t ++ [h] else r.handlers t⟩

/-- Go `HandlersFor(eventType)`: the registered slice for that type.  The
Go method returns a defensive copy of the slice; in this pure model a
returned list is a value that later `Subscribe` calls cannot alter,
which is exactly the behaviour the copy buys. -/
def HandlersFor (r : EventHandlerRegistry) (eventType : String) : List HandlerFn :=
  r.handlers eventType

/-- A sequence of `Subscribe` calls applied in order to a registry. -/
def subscribeAll (r : EventHandlerRegistry) (subs : List (String × HandlerFn)) :
    EventHandlerRegistry :=
  subs.foldl (fun acc p => Subscribe acc p.1 p.2) r

end EventBus

namespace Aggregate

/-- Go `AggregateRoot`: holds the private ordered list of pending domain
events.  The Go zero value (as embedded in a fresh aggregate struct)
has a nil slice. -/
structure AggregateRoot where
  domainEvents : List EventBus.Event

/-- The Go zero value of `AggregateRoot` (nil event slice). -/
def AggregateRoot.new : AggregateRoot := ⟨[]⟩

/-- Go `AddDomainEvent(event)`: appends to the internal collection. -/
def AddDomainEvent (a : AggregateRoot) (e : EventBus.Event) : AggregateRoot :=
  ⟨a.domainEvents ++ [e]⟩

/-- Go `DomainEvents()`: returns the collected events. -/
def DomainEvents (a : AggregateRoot) : List EventBus.Event :=
  a.domainEvents

/-- Go `ClearDomainEvents()`: sets the collection back to nil. -/
def ClearDomainEvents (_a : AggregateRoot) : AggregateRoot :=
  ⟨[]⟩

end Aggregate

namespace SpannerCtx

/-- Opaque Spanner read-write transaction handle. -/
structure ReadWriteTransaction where
  id : Nat
  deriving DecidableEq, Repr

/-- Opaque Spanner read-only transaction handle. -/
structure ReadOnlyTransaction where
  id : Nat
  deriving DecidableEq, Repr

/-- A request context, restricted to the two transaction value slots
this package reads and writes (`readWriteTxKey{}` / `readOnlyTxKey{}`).
`context.WithValue` on one key leaves the other untouched; lookup on a
key returns the value stored under it, if any. -/
structure Context where
  readWriteTx : Option ReadWriteTransaction
  readOnlyTx : Option ReadOnlyTransaction
  deriving DecidableEq, Repr

/-- The errors this package returns (`ErrNestedTransaction`). -/
inductive TxError where
  | nestedTransaction
  deriving DecidableEq, Repr

/-- Go `ReadWriteTxFromContext`: the value under `readWriteTxKey{}`. -/
def ReadWriteTxFromContext (ctx : Context) : Option ReadWriteTransaction :=
  ctx.readWriteTx

/-- Go `readOnlyTxFromContext`: the value under `readOnlyTxKey{}`. -/
def readOnlyTxFromContext (ctx : Context) : Option ReadOnlyTransaction :=
  ctx.readOnlyTx

/-- The `ReadTransaction` capability: either kind of transaction
serves reads. -/
inductive ReadTransaction where
  | rw (tx : ReadWriteTransaction)
  | ro (tx : ReadOnlyTransaction)
  deriving DecidableEq, Repr

/-- Go `ReadTransactionFromContext`: checks the read-write slot first
(read-your-writes inside a write transaction), then the read-only
slot; reports absence only when both are empty. -/
def ReadTransactionFromContext (ctx : Context) : Option ReadTransaction :=
  match ReadWriteTxFromContext ctx with
  | some tx => some (.rw tx)
  | none =>
    match readOnlyTxFromContext ctx with
    | some tx => some (.ro tx)
    | none => none

/-- Go `withReadWriteTx`: refuses with `ErrNestedTransaction` (returning
the nil context) when `ReadTransactionFromContext` finds any
transaction; otherwise returns a child context with the read-write
slot set. -/
def withReadWriteTx (ctx : Context) (tx : ReadWriteTransaction) :
    Option Context × Option TxError :=
  match ReadTransactionFromContext ctx with
  | some _ => (none, some .nestedTransaction)
  | none => (some { ctx with readWriteTx := some tx }, none)

/-- Go `withReadOnlyTx`: refuses with `ErrNestedTransaction` (returning
the nil context) when `ReadTransactionFromContext` finds any
transaction; otherwise returns a child context with the read-only
slot set. -/
def withReadOnlyTx (ctx : Context) (tx : ReadOnlyTransaction) :
    Option Context × Option TxError :=
  match ReadTransactionFromContext ctx with
  | some _ => (none, some .nestedTransaction)
  | none => (some { ctx with readOnlyTx := some tx }, none)

end SpannerCtx

namespace Events

/-- Lowercase ASCII letter, the `[a-z]` character class. -/
def isLowerAZ (c : Char) : Bool :=
  'a' ≤ c && c ≤ 'z'

/-- Uppercase ASCII letter, the `[A-Z]` character class. -/
def isUpperAZ (c : Char) : Bool :=
  'A' ≤ c && c ≤ 'Z'

/-- ASCII letter, the `[a-zA-Z]` character class. -/
def isAlphaAZ (c : Char) : Bool :=
  isLowerAZ c || isUpperAZ c

/-- The `[A-Z][a-zA-Z]+$` part of the event-type pattern: an uppercase
letter followed by at least one more letter, to the end. -/
def matchVerb : List Char → Bool
  | [] => false
  | c :: cs => isUpperAZ c && (!cs.isEmpty) && cs.all isAlphaAZ

/-- The `[a-z]*\.[A-Z][a-zA-Z]+$` part: zero or more further lowercase
letters, then the single dot, then the verb.  `[a-z]` does not admit
the dot, so the cases are disjoint. -/
def matchAfterFirst : List Char → Bool
  | [] => false
  | c :: cs => if c = '.' then matchVerb cs else isLowerAZ c && matchAfterFirst cs

/-- Modelled from the spec: the `EventType` format check, the regular
expression `^[a-z]+\.[A-Z][a-zA-Z]+$` ("owning-module.PastTenseVerb").
The defining source file of the typed `EventType` (with `Validate`)
is not in the file set; only its callers and the typed constants are,
so the check is transcribed from the spec's pattern: at least one
lowercase letter, one dot, an uppercase letter, at least one more
letter. -/
def validEventType (s : String) : Bool :=
  match s.toList with
  | [] => false
  | c :: cs => isLowerAZ c && matchAfterFirst cs

/-- Go `BaseEvent`: the common event fields.  The Go field `Type` is
rendered `Type'` because `Type` is reserved in Lean. -/
structure BaseEvent where
  ID : String
  Type' : String
  Timestamp : Nat
  AggregateId : String
  deriving DecidableEq, Repr

/-- Modelled from the spec: `NewBaseEvent` requires a valid
`EventType`; an invalid format is a fatal construction-time error, so
no `BaseEvent` is produced (`none` models the fatal abort).  The
generated UUID and the construction-time clock reading are passed in
as parameters `uuid` and `now`. -/
def NewBaseEvent (eventType aggregateID uuid : String) (now : Nat) : Option BaseEvent :=
  if validEventType eventType then
    some { ID := uuid, Type' := eventType, Timestamp := now, AggregateId := aggregateID }
  else
    none

end Events

namespace Samples

/-! Concrete sample values used to exercise the theorems below on
closed inputs. -/

/-- A sample event of the contract type `users.UserDeleted`. -/
def ev0 : EventBus.Event := ⟨"id0", "users.UserDeleted", 0, "agg0"⟩

/-- A second sample event. -/
def ev1 : EventBus.Event := ⟨"id1", "orders.OrderCancelled", 1, "agg1"⟩

/-- A third sample event. -/
def ev2 : EventBus.Event := ⟨"id2", "orders.OrderCancelled", 2, "agg2"⟩

/-- A handler that publishes nothing and succeeds. -/
def hNop : EventBus.HandlerFn := fun _ => ([], none)

/-- A handler that publishes nothing and fails. -/
def hFail : EventBus.HandlerFn := fun _ => ([], some "boom")

/-- A registry with no subscriptions. -/
def regEmpty : EventBus.RegistryFn := fun _ => []

/-- A registry whose single handler republishes the handled event
unchanged (an unconditional same-type cycle). -/
def regCycle : EventBus.RegistryFn := fun _ => [fun e => ([e], none)]

/-- A registry whose single handler publishes nothing and succeeds. -/
def regNop : EventBus.RegistryFn := fun _ => [hNop]

/-- A registry whose single handler fails. -/
def regFail : EventBus.RegistryFn := fun _ => [hFail]

/-- A sample read-write transaction handle. -/
def rw0 : SpannerCtx.ReadWriteTransaction := ⟨1⟩

/-- A sample read-only transaction handle. -/
def ro0 : SpannerCtx.ReadOnlyTransaction := ⟨2⟩

/-- A context carrying both transaction kinds. -/
def ctxBoth : SpannerCtx.Context := ⟨some rw0, some ro0⟩

/-- A context carrying only a read-only transaction. -/
def ctxRO : SpannerCtx.Context := ⟨none, some ro0⟩

/-- A context carrying no transaction. -/
def ctxEmpty : SpannerCtx.Context := ⟨none, none⟩

end Samples

namespace Aggregate

/-- Folding `AddDomainEvent` over a list appends it to the buffer. -/
theorem foldl_addDomainEvent (es : List EventBus.Event) (a : AggregateRoot) :
    (es.foldl AddDomainEvent a).domainEvents = a.domainEvents ++ es := by
  induction es generalizing a with
  | nil => simp
  | cons e es ih => simp [List.foldl_cons, ih, AddDomainEvent]

/-- Claim C3: For every sequence of `AddDomainEvent` calls on a fresh
aggregate root, the drain operation (`DomainEvents` followed by
`ClearDomainEvents`) yields all added events in the order they were
added on the first drain, and a second drain immediately after yields
the empty list, regardless of how many events were added. -/
theorem drain_at_most_once (es : List EventBus.Event) :
    DomainEvents (es.foldl AddDomainEvent AggregateRoot.new) = es ∧
    DomainEvents (ClearDomainEvents (es.foldl AddDomainEvent AggregateRoot.new)) = [] := by
  constructor
  · simp [DomainEvents, foldl_addDomainEvent, AggregateRoot.new]
  · simp [DomainEvents, ClearDomainEvents]

end Aggregate

namespace SpannerCtx

/-- Claim C4: Embedding a transaction of either kind fails with
`ErrNestedTransaction` and a nil context exactly when the incoming
context already carries a transaction of either kind; otherwise it
succeeds with a child context holding the new transaction in its
slot.  The incoming context appears unchanged on the right-hand
sides, which is the no-mutation part of the claim. -/
theorem nested_transaction_rejected (ctx : Context)
    (rw : ReadWriteTransaction) (ro : ReadOnlyTransaction) :
    (withReadWriteTx ctx rw =
      if ctx.readWriteTx.isSome || ctx.readOnlyTx.isSome then
        (none, some .nestedTransaction)
      else
        (some { ctx with readWriteTx := some rw }, none)) ∧
    (withReadOnlyTx ctx ro =
      if ctx.readWriteTx.isSome || ctx.readOnlyTx.isSome then
        (none, some .nestedTransaction)
      else
        (some { ctx with readOnlyTx := some ro }, none)) := by
  obtain ⟨rwslot, roslot⟩ := ctx
  cases rwslot <;> cases roslot <;>
    simp [withReadWriteTx, withReadOnlyTx, ReadTransactionFromContext,
      ReadWriteTxFromContext, readOnlyTxFromContext]

/-- Claim C5: The composed read accessor returns the read-write
transaction whenever one is embedded (even when a read-only one is
too), falls back to the read-only transaction otherwise, and reports
not-present exactly when neither kind is in the context. -/
theorem read_transaction_priority (ctx : Context) :
    (∀ tx, ctx.readWriteTx = some tx →
      ReadTransactionFromContext ctx = some (.rw tx)) ∧
    (∀ tx, ctx.readWriteTx = none → ctx.readOnlyTx = some tx →
      ReadTransactionFromContext ctx = some (.ro tx)) ∧
    (ReadTransactionFromContext ctx = none ↔
      ctx.readWriteTx = none ∧ ctx.readOnlyTx = none) := by
  obtain ⟨rwslot, roslot⟩ := ctx
  refine ⟨?_, ?_, ?_⟩ <;> cases rwslot <;> cases roslot <;>
    simp [ReadTransactionFromContext, ReadWriteTxFromContext, readOnlyTxFromContext]

/-- Witness for C5 at concrete contexts: both slots filled (read-write
wins), only read-only filled, and empty. -/
theorem read_transaction_priority_witness :
    ReadTransactionFromContext Samples.ctxBoth = some (.rw Samples.rw0) ∧
    ReadTransactionFromContext Samples.ctxRO = some (.ro Samples.ro0) ∧
    ReadTransactionFromContext Samples.ctxEmpty = none :=
  ⟨(read_transaction_priority Samples.ctxBoth).1 Samples.rw0 rfl,
   (read_transaction_priority Samples.ctxRO).2.1 Samples.ro0 rfl rfl,
   (read_transaction_priority Samples.ctxEmpty).2.2.mpr ⟨rfl, rfl⟩⟩

end SpannerCtx

namespace Events

/-- Claim C9: `NewBaseEvent` with an event type that does not match
`^[a-z]+\.[A-Z][a-zA-Z]+$` fails at construction time and produces no
event; consequently every constructed `BaseEvent` carries a valid
event type. -/
theorem invalid_event_type_rejected (s ag u : String) (n : Nat) :
    (validEventType s = false → NewBaseEvent s ag u n = none) ∧
    (∀ ev, NewBaseEvent s ag u n = some ev → validEventType ev.Type' = true) := by
  constructor
  · intro h
    simp [NewBaseEvent, h]
  · intro ev h
    by_cases hv : validEventType s
    · simp only [NewBaseEvent, hv, if_true, Option.some.injEq] at h
      rw [← h]
      exact hv
    · simp [NewBaseEvent, hv] at h

/-- Witness for C9 at the concrete invalid type `"UserDeleted"`
(missing the module segment and the dot). -/
theorem invalid_event_type_rejected_witness :
    validEventType "UserDeleted" = false ∧
    NewBaseEvent "UserDeleted" "agg0" "id0" 0 = none :=
  ⟨by decide, (invalid_event_type_rejected "UserDeleted" "agg0" "id0" 0).1 (by decide)⟩

end Events

namespace EventBus

/-- Claim C7: `Publish` always returns `nil`, appends the event at the
tail of the pending queue with all previously pending events unchanged
in place, alters nothing else in the publisher, and performs no
dispatch: its result is independent of the registry and its handlers,
as the last conjunct states by comparing publishers that differ only
in their registries. -/
theorem publish_appends_no_dispatch (b other : TransactionalPublisher) (e : Event) :
    (Publish b e).2 = none ∧
    (Publish b e).1.pending = b.pending ++ [e] ∧
    (Publish b e).1.registry = b.registry ∧
    (Publish b e).1.maxDepth = b.maxDepth ∧
    (other.pending = b.pending → (Publish other e).1.pending = (Publish b e).1.pending) := by
  refine ⟨rfl, rfl, rfl, rfl, ?_⟩
  intro h
  simp [Publish, h]

/-- Witness for C7: publishing to two publishers with the same queue
but different registries (one with a handler, one without) yields the
same queue — no handler influences `Publish`. -/
theorem publish_appends_no_dispatch_witness :
    (Publish { registry := Samples.regCycle, pending := [Samples.ev0], maxDepth := 10 }
        Samples.ev1).1.pending =
      (Publish { registry := Samples.regEmpty, pending := [Samples.ev0], maxDepth := 10 }
        Samples.ev1).1.pending :=
  (publish_appends_no_dispatch
    { registry := Samples.regEmpty, pending := [Samples.ev0], maxDepth := 10 }
    { registry := Samples.regCycle, pending := [Samples.ev0], maxDepth := 10 }
    Samples.ev1).2.2.2.2 rfl

/-- Go `subscribeAll` only ever appends to a type's handler slice. -/
theorem handlersFor_subscribeAll (subs : List (String × HandlerFn))
    (r : EventHandlerRegistry) (t : String) :
    HandlersFor (subscribeAll r subs) t =
      HandlersFor r t ++ (subs.filter fun p => p.1 = t).map Prod.snd := by
  induction subs generalizing r with
  | nil => simp [subscribeAll, HandlersFor]
  | cons p ps ih =>
    have hstep : subscribeAll r (p :: ps) = subscribeAll (Subscribe r p.1 p.2) ps := rfl
    rw [hstep, ih]
    by_cases h : p.1 = t
    · simp [HandlersFor, Subscribe, h, List.filter_cons]
    · simp [HandlersFor, Subscribe, h, List.filter_cons, Ne.symm h]

/-- Claim C8: After any sequence of `Subscribe` calls on a fresh
registry, `HandlersFor t` is exactly the handlers subscribed for `t`,
in subscription order, and empty for a type never subscribed (the
filter selects precisely the subscriptions for `t`).  A later
`Subscribe` only appends to its own type's slice and leaves every
other lookup unchanged, so the list an earlier `HandlersFor` call
returned — a value in this pure model, matching the defensive copy in
the code — is never altered. -/
theorem handlersFor_subscription_order (subs : List (String × HandlerFn))
    (r : EventHandlerRegistry) (t t' : String) (h : HandlerFn) :
    (HandlersFor (subscribeAll NewEventHandlerRegistry subs) t =
      (subs.filter fun p => p.1 = t).map Prod.snd) ∧
    (HandlersFor (Subscribe r t h) t = HandlersFor r t ++ [h]) ∧
    (t' ≠ t → HandlersFor (Subscribe r t' h) t = HandlersFor r t) := by
  refine ⟨?_, ?_, ?_⟩
  · rw [handlersFor_subscribeAll]
    simp [HandlersFor, NewEventHandlerRegistry]
  · simp [HandlersFor, Subscribe]
  · intro hne
    simp [HandlersFor, Subscribe, Ne.symm hne]

/-- Witness for C8: subscribing under one type leaves lookups for a
different type unchanged. -/
theorem handlersFor_subscription_order_witness :
    HandlersFor (Subscribe NewEventHandlerRegistry "users.UserDeleted" Samples.hNop)
        "orders.OrderCancelled" =
      HandlersFor NewEventHandlerRegistry "orders.OrderCancelled" :=
  (handlersFor_subscription_order [] NewEventHandlerRegistry "orders.OrderCancelled"
    "users.UserDeleted" Samples.hNop).2.2 (by decide)

end EventBus

namespace EventBus

/-- Every entry of the handler-invocation trace of `runHandlers e hs`
is `e`: the inner loop only invokes handlers on the drained event. -/
theorem runHandlers_trace_mem (e : Event) (hs : List HandlerFn) :
    ∀ x ∈ (runHandlers e hs).2.1, x = e := by
  induction hs with
  | nil => simp [runHandlers]
  | cons h hs ih =>
    rcases hhe : h e with ⟨pubs, err⟩
    cases err with
    | some msg => simp [runHandlers, hhe]
    | none =>
      simp only [runHandlers, hhe]
      simpa using ih

/-- When every handler succeeds, the inner loop invokes them all,
concatenates their publications in order, and reports no error. -/
theorem runHandlers_all_ok (e : Event) (hs : List HandlerFn)
    (hok : ∀ h ∈ hs, (h e).2 = none) :
    runHandlers e hs =
      ((hs.map fun h => (h e).1).flatten, hs.map (fun _ => e), none) := by
  induction hs with
  | nil => simp [runHandlers]
  | cons h hs ih =>
    have h1 : (h e).2 = none := hok h (by simp)
    have ihh := ih fun g hg => hok g (by simp [hg])
    simp [runHandlers, h1, ihh]

/-- When the handlers for the drained event are some succeeding prefix
followed by a failing handler, the inner loop stops at the failure:
the trace covers exactly the prefix and the failing call, the
publications of the invoked handlers are all kept, and the failure
message is reported.  The handlers after the failing one contribute
nothing. -/
theorem runHandlers_stops_at_failure (e : Event) (hs₁ : List HandlerFn)
    (hbad : HandlerFn) (hs₂ : List HandlerFn) (pubs : List Event) (msg : String)
    (hok : ∀ h ∈ hs₁, (h e).2 = none)
    (hb : hbad e = (pubs, some msg)) :
    runHandlers e (hs₁ ++ hbad :: hs₂) =
      ((hs₁.map fun h => (h e).1).flatten ++ pubs,
       hs₁.map (fun _ => e) ++ [e],
       some msg) := by
  induction hs₁ with
  | nil => simp [runHandlers, hb]
  | cons h hs ih =>
    have h1 : (h e).2 = none := hok h (by simp)
    have ihh := ih fun g hg => hok g (by simp [hg])
    simp [runHandlers, h1, ihh]

/-- Go `flushLoop` reports success only with an empty final queue. -/
theorem flushLoop_ok_empty (reg : RegistryFn) :
    ∀ (a : Nat) (pending : List Event),
      (flushLoop reg a pending).2.2 = none → (flushLoop reg a pending).2.1 = [] := by
  intro a
  induction a with
  | zero =>
    intro pending h
    cases pending with
    | nil => simp [flushLoop]
    | cons e rest => simp [flushLoop] at h
  | succ a ih =>
    intro pending h
    cases pending with
    | nil => simp [flushLoop]
    | cons e rest =>
      rcases hr : runHandlers e (reg e.eventType) with ⟨pubs, tr, err⟩
      cases err with
      | some msg => simp [flushLoop, hr] at h
      | none =>
        simp only [flushLoop, hr] at h ⊢
        exact ih _ h

/-- Claim C1: `Flush` is FIFO and exhaustive.  First conjunct: draining
a queue `e :: rest` (with depth allowance remaining) runs all of `e`'s
handlers first, their invocations forming the prefix `tr` of the
whole trace, appends whatever they published (`pubs`) at the tail of
the same queue `rest`, and continues the same drain loop on
`rest ++ pubs` — so every handler of the head event completes before
any handler of a later event, and handler-published events are
delivered within the same `Flush` call.  Second conjunct: that prefix
only invokes handlers on `e`.  Third conjunct: `Flush` returns `nil`
only when the final pending queue is empty. -/
theorem flush_fifo_exhaustive (reg : RegistryFn) (a : Nat) (e : Event)
    (rest pubs tr : List Event)
    (hrun : runHandlers e (reg e.eventType) = (pubs, tr, none)) :
    (flushLoop reg (a + 1) (e :: rest) =
      (tr ++ (flushLoop reg a (rest ++ pubs)).1,
       (flushLoop reg a (rest ++ pubs)).2.1,
       (flushLoop reg a (rest ++ pubs)).2.2)) ∧
    (∀ x ∈ tr, x = e) ∧
    (∀ b : TransactionalPublisher,
      (Flush b).2.2 = none → (Flush b).2.1.pending = []) := by
  refine ⟨?_, ?_, ?_⟩
  · simp [flushLoop, hrun]
  · have h := runHandlers_trace_mem e (reg e.eventType)
    rw [hrun] at h
    simpa using h
  · intro b h
    simp only [Flush] at h ⊢
    exact flushLoop_ok_empty b.registry b.maxDepth b.pending h

/-- Witness for C1: a one-event queue under a registry whose single
handler publishes nothing. -/
theorem flush_fifo_exhaustive_witness :
    flushLoop Samples.regNop 1 [Samples.ev0] =
      ([Samples.ev0] ++ (flushLoop Samples.regNop 0 ([] ++ [])).1,
       (flushLoop Samples.regNop 0 ([] ++ [])).2.1,
       (flushLoop Samples.regNop 0 ([] ++ [])).2.2) :=
  (flush_fifo_exhaustive Samples.regNop 0 Samples.ev0 [] [] [Samples.ev0] rfl).1

end EventBus

namespace EventBus

/-- Under a registry whose handler for type `t` unconditionally
republishes one type-preserving event, the drain loop spends its whole
allowance `a` on the cycle: it invokes the handler once per allowance
unit on the successively republished events and then stops with the
depth error, one republished event still pending. -/
theorem flushLoop_cycle (g : Event → Event) (t : String) (reg : RegistryFn)
    (hg : ∀ e, (g e).eventType = e.eventType)
    (hreg : reg t = [fun e => ([g e], none)]) :
    ∀ (a : Nat) (e : Event), e.eventType = t →
      flushLoop reg a [e] =
        ((List.range a).map (fun i => g^[i] e), [g^[a] e], some .depthExceeded) := by
  intro a
  induction a with
  | zero => intro e he; simp [flushLoop]
  | succ a ih =>
    intro e he
    have hh : reg e.eventType = [fun e => ([g e], none)] := by rw [he, hreg]
    have hrun : runHandlers e (reg e.eventType) = ([g e], [e], none) := by
      rw [hh]; rfl
    have hnext := ih (g e) (by rw [hg e, he])
    have hmap : List.map (fun i => g^[i] e) (List.range (a + 1))
        = e :: List.map (fun i => g^[i] (g e)) (List.range a) := by
      rw [List.range_succ_eq_map, List.map_cons, List.map_map]
      refine congrArg₂ _ (by simp) (List.map_congr_left ?_)
      intro i _
      simp [Function.iterate_succ_apply]
    have hit : g^[a + 1] e = g^[a] (g e) := Function.iterate_succ_apply g a e
    simp only [flushLoop, hrun, List.nil_append, hnext, hmap, hit, List.singleton_append]

/-- Claim C2: For a publisher built by `NewTransactionalPublisher` with
maximum depth 10 whose registry maps event type `t` to a single
handler that unconditionally publishes one new event of the same type
(`g` preserves the event type), `Flush` started with one pending
type-`t` event terminates (the model is a total function) and returns
`ErrEventProcessingDepthExceeded`, with exactly 10 — hence no more
than 10 — handler invocations before the error. -/
theorem flush_depth_limits_cycle (g : Event → Event) (t : String)
    (reg : RegistryFn) (e0 : Event)
    (hg : ∀ e, (g e).eventType = e.eventType)
    (hreg : reg t = [fun e => ([g e], none)])
    (he : e0.eventType = t) :
    (Flush (Publish (NewTransactionalPublisher reg 10) e0).1).2.2 =
      some .depthExceeded ∧
    (Flush (Publish (NewTransactionalPublisher reg 10) e0).1).1.length = 10 := by
  have hb : (Publish (NewTransactionalPublisher reg 10) e0).1 =
      { registry := reg, pending := [e0], maxDepth := 10 } := by
    simp [Publish, NewTransactionalPublisher]
  rw [hb]
  have h := flushLoop_cycle g t reg hg hreg 10 e0 he
  constructor
  · simp [Flush, h]
  · simp [Flush, h]

/-- Witness for C2: a handler that republishes the handled event
itself (`g` the identity). -/
theorem flush_depth_limits_cycle_witness :
    (Flush (Publish (NewTransactionalPublisher Samples.regCycle 10) Samples.ev0).1).2.2 =
      some .depthExceeded ∧
    (Flush (Publish (NewTransactionalPublisher Samples.regCycle 10) Samples.ev0).1).1.length
      = 10 :=
  flush_depth_limits_cycle (fun e => e) "users.UserDeleted" Samples.regCycle Samples.ev0
    (fun _ => rfl) rfl rfl

/-- Claim C6: If, while `Flush` drains `ev`, the handlers registered for
`ev` are a succeeding prefix `hs₁` followed by a handler that returns
error `msg`, then `Flush` returns the error wrapped with `ev`'s event
type, the invocation trace is exactly the prefix's calls plus the
failing call — none of the remaining handlers of `ev` (`hs₂`) and no
handler of any still-pending event runs — and the queue keeps the
undelivered events. -/
theorem handler_error_aborts_flush (reg : RegistryFn) (a : Nat) (ev : Event)
    (rest : List Event) (hs₁ hs₂ : List HandlerFn) (hbad : HandlerFn)
    (pubs : List Event) (msg : String)
    (hreg : reg ev.eventType = hs₁ ++ hbad :: hs₂)
    (hok : ∀ h ∈ hs₁, (h ev).2 = none)
    (hb : hbad ev = (pubs, some msg)) :
    Flush { registry := reg, pending := ev :: rest, maxDepth := a + 1 } =
      (hs₁.map (fun _ => ev) ++ [ev],
       { registry := reg,
         pending := rest ++ ((hs₁.map fun h => (h ev).1).flatten ++ pubs),
         maxDepth := a + 1 },
       some (.handlerFailed ev.eventType msg)) := by
  have hrun := runHandlers_stops_at_failure ev hs₁ hbad hs₂ pubs msg hok hb
  rw [← hreg] at hrun
  simp [Flush, flushLoop, hrun]

/-- Witness for C6: the failing handler is the only registered one and
one further event is pending; the trace stops at the failing call and
the pending event is left undelivered. -/
theorem handler_error_aborts_flush_witness :
    Flush { registry := Samples.regFail, pending := [Samples.ev0, Samples.ev1],
            maxDepth := 10 } =
      ([Samples.ev0],
       { registry := Samples.regFail, pending := [Samples.ev1], maxDepth := 10 },
       some (.handlerFailed "users.UserDeleted" "boom")) := by
  have h := handler_error_aborts_flush Samples.regFail 9 Samples.ev0 [Samples.ev1]
    [] [] Samples.hFail [] "boom" rfl (by simp) rfl
  simpa using h

end EventBus

namespace EventBus

/-- With handlers that publish nothing and succeed, the inner loop
just records one invocation per handler. -/
theorem runHandlers_nopub (e : Event) (hs : List HandlerFn)
    (hng : ∀ h ∈ hs, h e = ([], none)) :
    runHandlers e hs = ([], hs.map (fun _ => e), none) := by
  have hok : ∀ h ∈ hs, (h e).2 = none := fun h hm => by rw [hng h hm]
  rw [runHandlers_all_ok e hs hok]
  have : (hs.map fun h => (h e).1) = hs.map fun _ => ([] : List Event) :=
    List.map_congr_left fun h hm => by rw [hng h hm]
  simp [this]

/-- With handlers that never publish, the drain loop with allowance
`es.length` on the queue `es ++ rest` drains exactly `es` — invoking
each drained event's handlers — and stops there: success if nothing
remains, the depth error with `rest` still pending otherwise. -/
theorem flushLoop_nopub (reg : RegistryFn)
    (hng : ∀ t, ∀ h ∈ reg t, ∀ e, h e = ([], none)) :
    ∀ (es rest : List Event),
      flushLoop reg es.length (es ++ rest) =
        (es.flatMap (fun e => (reg e.eventType).map fun _ => e), rest,
         if rest.isEmpty then none else some .depthExceeded) := by
  intro es
  induction es with
  | nil =>
    intro rest
    cases rest with
    | nil => simp [flushLoop]
    | cons e r => simp [flushLoop]
  | cons e es ih =>
    intro rest
    have hrun : runHandlers e (reg e.eventType)
        = ([], (reg e.eventType).map fun _ => e, none) :=
      runHandlers_nopub e _ fun h hm => hng e.eventType h hm e
    simp only [List.cons_append, List.length_cons, flushLoop, hrun, List.append_nil,
      List.append_eq, ih rest, List.flatMap_cons]

/-- Claim C10: The depth counter counts every drained event, not only
handler-triggered ones: with maximum depth `es.length` and handlers
that publish nothing, flushing the `es.length + 1` pending events
`es ++ [elast]` returns `ErrEventProcessingDepthExceeded` after
draining exactly `es` (the trace holds their handler invocations),
leaving the one remaining event in the pending queue
(`PendingCount = 1`) — even though no event cycle exists. -/
theorem depth_counts_every_drained_event (reg : RegistryFn)
    (es : List Event) (elast : Event)
    (hng : ∀ t, ∀ h ∈ reg t, ∀ e, h e = ([], none)) :
    Flush { registry := reg, pending := es ++ [elast], maxDepth := es.length } =
      (es.flatMap (fun e => (reg e.eventType).map fun _ => e),
       { registry := reg, pending := [elast], maxDepth := es.length },
       some .depthExceeded) ∧
    PendingCount
      (Flush { registry := reg, pending := es ++ [elast],
               maxDepth := es.length }).2.1 = 1 := by
  have h := flushLoop_nopub reg hng es [elast]
  constructor
  · simp [Flush, h]
  · simp [Flush, h, PendingCount]

/-- Witness for C10: maximum depth 2, three pending events, a single
non-publishing handler; the flush drains the first two and stops. -/
theorem depth_counts_every_drained_event_witness :
    Flush { registry := Samples.regNop,
            pending := [Samples.ev0, Samples.ev1, Samples.ev2], maxDepth := 2 } =
      ([Samples.ev0, Samples.ev1],
       { registry := Samples.regNop, pending := [Samples.ev2], maxDepth := 2 },
       some .depthExceeded) := by
  have h := depth_counts_every_drained_event Samples.regNop [Samples.ev0, Samples.ev1]
    Samples.ev2 (by
      intro t h hm e
      simp [Samples.regNop] at hm
      rw [hm]
      rfl)
  simpa [Samples.regNop, Samples.hNop] using h.1

end EventBus
